import Mathlib

/-!
Verification of the Hermes instruction outliner (lib/Optimizer/Scalar/Outlining.cpp)
and the hidden-class fast property lookup (include/hermes/VM/HiddenClass.h).

The IR data model is embedded shallowly: an instruction is a variety, an
address (standing for the C++ object identity / pointer) and a list of operand
values; literals are interned per module and identified by a pointer (a Nat).
External collaborators that are not part of the two source files
(InstructionNumbering, InstructionEscapeAnalysis, DictPropertyMap, the llvm
suffix-tree engine) are modelled from the specification, as noted on each
definition.
-/

/-- The discriminator of an instruction ("variety"): the kinds that matter to
`instructionIsLegalToOutline` are explicit, all others are `other` with an
opcode number. -/
inductive Variety where
  | phi
  | terminator
  | createArguments
  | allocStack
  | loadStack
  | storeStack
  | other (opcode : Nat)
deriving DecidableEq, Repr

/-- An IR value operand: a module-interned literal, a reference to another
instruction (by its address), a parameter of the containing function, a
variable (closure upvalue), or a reference to a function. -/
inductive Value where
  | literal (ptr : Nat)
  | instRef (addr : Nat)
  | param (ptr : Nat)
  | variableRef (ptr : Nat)
  | funcRef (id : Nat)
deriving DecidableEq, Repr

instance : Inhabited Value := ⟨Value.literal 0⟩

/-- An IR instruction: its address (object identity), variety discriminator
and ordered operand list. -/
structure Inst where
  addr : Nat
  variety : Variety
  operands : List Value
deriving DecidableEq, Repr

instance : Inhabited Inst := ⟨⟨0, Variety.other 0, []⟩⟩

/-- True when the value is a Variable (closure upvalue). -/
def Value.isVariable : Value → Bool
  | .variableRef _ => true
  | _ => false

/-- Whether an instruction is safe to extract into an outlined function:
phis, terminators, argument creation, stack allocation/load/store and any
instruction with a Variable operand are illegal (Outlining.cpp,
instructionIsLegalToOutline). -/
def instructionIsLegalToOutline (inst : Inst) : Bool :=
  match inst.variety with
  | .phi | .terminator | .createArguments | .allocStack | .loadStack | .storeStack => false
  | .other _ => !inst.operands.any Value.isVariable

/-- The flat vector of (operand index, literal pointer) data for the literal
operands of an instruction, in operand order (InstructionValueInfo
getLiteralVec: the index is pushed, then the interned Literal pointer). -/
def getLiteralVec (inst : Inst) : List Nat :=
  inst.operands.enum.foldr
    (fun p acc =>
      match p.2 with
      | Value.literal ptr => p.1 :: ptr :: acc
      | _ => acc)
    []

/-- Structural equivalence of two (non-sentinel) instructions, as decided by
InstructionValueInfo isEqual: same variety, same operand count, same literal
vector. -/
def isEqualInst (lhs rhs : Inst) : Bool :=
  if lhs.variety = rhs.variety ∧ lhs.operands.length = rhs.operands.length then
    decide (getLiteralVec lhs = getLiteralVec rhs)
  else
    false

/-- A key of the DenseMap used by convertModuleToUnsignedVec: the reserved
empty and tombstone sentinel pointers, or a real instruction. -/
inductive InstKey where
  | emptyKey
  | tombstoneKey
  | realKey (inst : Inst)
deriving DecidableEq, Repr

/-- InstructionValueInfo isEqual on map keys: when either side is a reserved
sentinel, comparison is by (pointer) identity; otherwise it is the structural
comparison of varieties, operand counts and literal vectors. -/
def InstKey.isEqual : InstKey → InstKey → Bool
  | .realKey lhs, .realKey rhs => isEqualInst lhs rhs
  | a, b => decide (a = b)

/-- 2^32: the number of values of the C++ type unsigned. -/
def UINT32_SIZE : Nat := 2 ^ 32

/-- DenseMapInfo of unsigned: the reserved empty key, static_cast of -1. -/
def unsignedEmptyKey : Nat := UINT32_SIZE - 1

/-- DenseMapInfo of unsigned: the reserved tombstone key, static_cast of -2. -/
def unsignedTombstoneKey : Nat := UINT32_SIZE - 2

/-- The state of the conversion loop of convertModuleToUnsignedVec: the two
parallel output vectors, the DenseMap from instructions to numbers (an
association list looked up through isEqualInst), the upward legal counter, the
downward illegal counter and the lastWasIllegal flag. -/
structure ConvState where
  unsignedVec : List Nat
  instructions : List Inst
  map : List (Inst × Nat)
  legal : Nat
  illegal : Nat
  lastWasIllegal : Bool
deriving DecidableEq, Repr

/-- Lookup in the instruction-to-number DenseMap: the first entry whose key is
isEqualInst-equivalent to the probe. -/
def mapFind (map : List (Inst × Nat)) (inst : Inst) : Option (Inst × Nat) :=
  map.find? (fun entry => isEqualInst entry.1 inst)

/-- One instruction of the inner loop of convertModuleToUnsignedVec: a legal
instruction is pushed with its existing number, or with a fresh legal number
(try_emplace); an illegal instruction is pushed with a fresh illegal number
only when the previous instruction was not illegal. Counter arithmetic is that
of the C++ type unsigned (mod 2^32). -/
def convStep (st : ConvState) (inst : Inst) : ConvState :=
  if instructionIsLegalToOutline inst then
    match mapFind st.map inst with
    | some entry =>
        { st with
          unsignedVec := st.unsignedVec ++ [entry.2]
          instructions := st.instructions ++ [inst]
          lastWasIllegal := false }
    | none =>
        { st with
          unsignedVec := st.unsignedVec ++ [st.legal]
          instructions := st.instructions ++ [inst]
          map := st.map ++ [(inst, st.legal)]
          legal := (st.legal + 1) % UINT32_SIZE
          lastWasIllegal := false }
  else if !st.lastWasIllegal then
    { st with
      unsignedVec := st.unsignedVec ++ [st.illegal]
      instructions := st.instructions ++ [inst]
      illegal := (st.illegal + (UINT32_SIZE - 1)) % UINT32_SIZE
      lastWasIllegal := true }
  else
    st

/-- An IR function: its strict-mode flag and its basic blocks (each a list of
instructions in program order). -/
structure IRFunc where
  strictMode : Bool
  blocks : List (List Inst)
deriving DecidableEq, Repr

/-- The outlining settings (include/hermes/IR/IR.h OutliningSettings). -/
structure OutliningSettings where
  placeNearCaller : Bool
  maxRounds : Nat
  minLength : Nat
  minParameters : Nat
  maxParameters : Nat
deriving DecidableEq, Repr

/-- The initial state of convertModuleToUnsignedVec: empty outputs and map,
legal = 0, illegal = static_cast of -3, lastWasIllegal = true. -/
def initConvState : ConvState :=
  { unsignedVec := []
    instructions := []
    map := []
    legal := 0
    illegal := UINT32_SIZE - 3
    lastWasIllegal := true }

/-- convertModuleToUnsignedVec: walk every function, every basic block (those
at least minLength long) and every instruction, accumulating the two parallel
vectors with convStep. -/
def convertModuleToUnsignedVec (M : List IRFunc) (settings : OutliningSettings) : ConvState :=
  M.foldl
    (fun st F =>
      F.blocks.foldl
        (fun st BB =>
          if BB.length < settings.minLength then st
          else BB.foldl convStep st)
        st)
    initConvState

/-- The basic blocks of the module that convertModuleToUnsignedVec does not
skip: every block of every function, in order, of length at least minLength. -/
def includedBlocks (M : List IRFunc) (settings : OutliningSettings) : List (List Inst) :=
  ((M.map IRFunc.blocks).flatten).filter (fun BB => !(BB.length < settings.minLength))

/-- The instruction traversal order of convertModuleToUnsignedVec: the
concatenation of the included blocks. -/
def moduleTraversal (M : List IRFunc) (settings : OutliningSettings) : List Inst :=
  (includedBlocks M settings).flatten

/-- The entry-selection rule on a traversal: a legal instruction always gets an
entry; an illegal instruction gets an entry only when the state flag (last
instruction was illegal) is off. Started with the flag off, this realizes the
claimed rule "the first instruction of every maximal illegal run gets an
entry"; started with the flag on (as the code does), a maximal illegal run at
the very start of the traversal is omitted entirely. -/
def collapseEntries : Bool → List Inst → List Inst
  | _, [] => []
  | lastWasIllegal, inst :: rest =>
    if instructionIsLegalToOutline inst then inst :: collapseEntries false rest
    else if !lastWasIllegal then inst :: collapseEntries true rest
    else collapseEntries true rest

/-- Claim C1 as stated: the instruction vector produced by
convertModuleToUnsignedVec keeps every legal instruction and exactly the first
instruction of every maximal run of consecutive illegal instructions of the
traversal. -/
def claimC1 (M : List IRFunc) (settings : OutliningSettings) : Prop :=
  (convertModuleToUnsignedVec M settings).instructions
    = collapseEntries false (moduleTraversal M settings)

/-- A module whose single included block consists of a single illegal (phi)
instruction. -/
def phiOnlyModule : List IRFunc :=
  [{ strictMode := false, blocks := [[{ addr := 0, variety := Variety.phi, operands := [] }]] }]

/-- Settings with minLength 1 so that the one-instruction block is included. -/
def c1Settings : OutliningSettings :=
  { placeNearCaller := false, maxRounds := 1, minLength := 1, minParameters := 0,
    maxParameters := 10 }

/-- The asserted precondition of the conversion loop, checked before every
instruction: the upward legal counter is still strictly below the downward
illegal counter ("Legal and illegal numbers collided!"). -/
def convAssertsOK : ConvState → List Inst → Bool
  | _, [] => true
  | st, inst :: rest => decide (st.legal < st.illegal) && convAssertsOK (convStep st inst) rest

/-- Modelled from the spec: an operand of an InstructionNumbering expression
(InstructionNumbering is not under src/): a reference to an earlier
instruction of the range, a parameter to be passed in (externals are indexed
in first-use order), or a plain shared value. -/
inductive NOperand where
  | internal (index : Nat)
  | external (index : Nat)
  | value (valuePtr : Value)
deriving DecidableEq, Repr

/-- Modelled from the spec: an InstructionNumbering expression, the variety of
an instruction together with its numbered operands. -/
structure Expression where
  variety : Variety
  operands : List NOperand
deriving DecidableEq, Repr

/-- Modelled from the spec: numbering of one operand value, given the
instructions earlier in the range and the external map (parameters already
encountered, in first-use order). Both the Instructions and the Parameters
flags are set (NUMBERING_FLAGS): an operand that is an instruction earlier in
the range becomes Internal(index within range); a parameter becomes
External(n) with n assigned sequentially on first encounter; anything else is
a Value operand. -/
def numberValue (prefixInsts : List Inst) (extMap : List Nat) (v : Value) :
    NOperand × List Nat :=
  match v with
  | .instRef a =>
    match prefixInsts.findIdx? (fun j => j.addr == a) with
    | some idx => (.internal idx, extMap)
    | none => (.value v, extMap)
  | .param p =>
    match extMap.findIdx? (fun q => q == p) with
    | some idx => (.external idx, extMap)
    | none => (.external extMap.length, extMap ++ [p])
  | v => (.value v, extMap)

/-- Modelled from the spec: numbering of one instruction, folding numberValue
over its operands in order. -/
def numberInst (prefixInsts : List Inst) (extMap : List Nat) (inst : Inst) :
    Expression × List Nat :=
  let r := inst.operands.foldl
    (fun (acc : List NOperand × List Nat) v =>
      let p := numberValue prefixInsts acc.2 v
      (acc.1 ++ [p.1], p.2))
    ([], extMap)
  ({ variety := inst.variety, operands := r.1 }, r.2)

/-- Modelled from the spec: numbering of the instructions of a range in
program order, threading the already-seen prefix and the external map. -/
def numberRangeAux (done : List Inst) (extMap : List Nat) : List Inst → List Expression
  | [] => []
  | inst :: rest =>
    let p := numberInst done extMap inst
    p.1 :: numberRangeAux (done ++ [inst]) p.2 rest

/-- Modelled from the spec: the InstructionNumbering expression sequence of a
range, one expression per instruction. -/
def numberRange (range : List Inst) : List Expression :=
  numberRangeAux [] [] range

/-- An instruction range, the unit the escape analysis works on. -/
abbrev IRange := List Inst

/-- Modelled from the spec: the result of InstructionEscapeAnalysis
longestPrefix, a prefix length and the offset of the escaping instruction when
there is one. -/
structure LongestPrefix where
  length : Nat
  offset : Option Nat
deriving DecidableEq, Repr

/-- Modelled from the spec: the state of InstructionEscapeAnalysis is the
stack of ranges added so far (most recently added first); addRange pushes and
removeLastRange pops, the stack-discipline undo the spec requires. The
longestPrefix computation itself is an external collaborator and is kept
abstract: definitions below take it as a function of the range stack. -/
structure InstructionEscapeAnalysis where
  ranges : List IRange
deriving DecidableEq, Repr

/-- Modelled from the spec: add a range to the escape analysis. -/
def InstructionEscapeAnalysis.addRange (ea : InstructionEscapeAnalysis) (r : IRange) :
    InstructionEscapeAnalysis :=
  { ranges := r :: ea.ranges }

/-- Modelled from the spec: undo the most recent addRange. -/
def InstructionEscapeAnalysis.removeLastRange (ea : InstructionEscapeAnalysis) :
    InstructionEscapeAnalysis :=
  { ranges := ea.ranges.tail }

/-- The fresh escape analysis with no ranges. -/
def emptyEscapeAnalysis : InstructionEscapeAnalysis := { ranges := [] }

/-- HermesOutlinerTarget getRange: the substring of the suffix-tree
instruction list starting at startIdx, of the given length. -/
def getRange (instructions : List Inst) (startIdx len : Nat) : IRange :=
  (instructions.drop startIdx).take len

/-- The lockstep walk of two expression sequences of
getOutlinableCommonPrefix: matching expressions are appended to the common
prefix, stopping at the first mismatch. -/
def commonExpressions : List Expression → List Expression → List Expression
  | x :: xs, y :: ys => if x = y then x :: commonExpressions xs ys else []
  | _, _ => []

/-- HermesOutlinerTarget getOutlinableCommonPrefix: the longest matching
expression prefix of the ranges at startIdx0 and startIdx1, shortened so that
at most one value escapes (both common-prefix ranges are added to the escape
analysis, and the prefix is cut to longestPrefix().length). \p lp is the
abstract longestPrefix computation of the external escape analysis. Returns
the expressions and the escape analysis as left by the call. -/
def getOutlinableCommonPrefix (lp : List IRange → LongestPrefix)
    (instructions : List Inst) (escapeAnalysis : InstructionEscapeAnalysis)
    (startIdx0 startIdx1 length : Nat) :
    List Expression × InstructionEscapeAnalysis :=
  let expressions := commonExpressions
    (numberRange (getRange instructions startIdx0 length))
    (numberRange (getRange instructions startIdx1 length))
  let commonLength := expressions.length
  if 0 < commonLength then
    let ea := (escapeAnalysis.addRange
        (getRange instructions startIdx0 commonLength)).addRange
        (getRange instructions startIdx1 commonLength)
    (expressions.take (lp ea.ranges).length, ea)
  else
    (expressions, escapeAnalysis)

/-- HermesOutlinerTarget matchesCommonPrefix: the range at startIdx (of the
common prefix's length) matches when its numbering equals the stored
expressions elementwise and, once added to the escape analysis, the
escape-clean prefix still covers the whole length; on failure the added range
is removed again. Returns the flag and the escape analysis as left by the
call. -/
def matchesCommonPrefix (lp : List IRange → LongestPrefix)
    (instructions : List Inst) (expressions : List Expression)
    (escapeAnalysis : InstructionEscapeAnalysis) (startIdx : Nat) :
    Bool × InstructionEscapeAnalysis :=
  let length := expressions.length
  let range := getRange instructions startIdx length
  if expressions = (numberRange range).take length then
    let ea := escapeAnalysis.addRange range
    if (lp ea.ranges).length = length then (true, ea)
    else (false, ea.removeLastRange)
  else
    (false, escapeAnalysis)

/-- HermesOutlinerTarget distinctExternalOperandCount: external operands are
indexed sequentially from 0, so the count of distinct externals is the highest
index + 1, or 0 when there are none. -/
def distinctExternalOperandCount (expressions : List Expression) : Nat :=
  expressions.foldl
    (fun count expr =>
      expr.operands.foldl
        (fun count operand =>
          match operand with
          | NOperand.external index => max count (index + 1)
          | _ => count)
        count)
    0

/-- An outlining candidate of the llvm outliner: start index and length in the
suffix-tree input, call overhead, and the pruned flag. -/
structure Candidate where
  startIdx : Nat
  length : Nat
  callOverhead : Nat
  deleted : Bool := false
deriving DecidableEq, Repr

instance : Inhabited Candidate := ⟨⟨0, 0, 0, false⟩⟩

/-- An OutlinedFunction of the llvm outliner: its candidates, sequence size
and frame overhead. The common-prefix expressions the Hermes target created it
from are kept alongside so that properties about its parameters can be
stated. -/
structure OutlinedFunction where
  candidates : List Candidate
  sequenceSize : Nat
  frameOverhead : Nat
  exprs : List Expression
deriving DecidableEq, Repr

instance : Inhabited OutlinedFunction := ⟨⟨[], 0, 0, []⟩⟩

/-- The inner loop of createOutlinedFunctions over the remaining start
indices: each one that matches the common prefix (threading the escape
analysis through matchesCommonPrefix) contributes a further candidate. -/
def includeOtherCandidates (lp : List IRange → LongestPrefix)
    (instructions : List Inst) (expressions : List Expression)
    (offset commonLength callOverhead : Nat) :
    List Nat → InstructionEscapeAnalysis → List Candidate →
    List Candidate × InstructionEscapeAnalysis
  | [], ea, acc => (acc, ea)
  | s :: rest, ea, acc =>
    let startIdx := s + offset
    let r := matchesCommonPrefix lp instructions expressions ea startIdx
    if r.1 then
      includeOtherCandidates lp instructions expressions offset commonLength callOverhead
        rest r.2 (acc ++ [{ startIdx := startIdx, length := commonLength,
                            callOverhead := callOverhead, deleted := false }])
    else
      includeOtherCandidates lp instructions expressions offset commonLength callOverhead
        rest r.2 acc

/-- The body of one iteration of the createOutlinedFunctions loop at a given
offset: the emitted OutlinedFunction, or none when the escape-shortened common
prefix is shorter than minLength or the parameter count violates
[minParameters, maxParameters]. -/
def outlinedFunctionAt (lp : List IRange → LongestPrefix)
    (settings : OutliningSettings) (instructions : List Inst)
    (startIndices : List Nat) (candidateLength offset : Nat) :
    Option OutlinedFunction :=
  let index0 := startIndices.getD 0 0 + offset
  let index1 := startIndices.getD 1 0 + offset
  let remainingLength := candidateLength - offset
  let r := getOutlinableCommonPrefix lp instructions emptyEscapeAnalysis
    index0 index1 remainingLength
  let expressions := r.1
  let commonLength := expressions.length
  if commonLength < settings.minLength then
    none
  else
    let numParameters := distinctExternalOperandCount expressions
    if numParameters < settings.minParameters ∨ settings.maxParameters < numParameters then
      none
    else
      let callOverhead := 2 + numParameters
      let frameOverhead := 5 + numParameters
      let seed : List Candidate :=
        [{ startIdx := index0, length := commonLength, callOverhead := callOverhead,
           deleted := false },
         { startIdx := index1, length := commonLength, callOverhead := callOverhead,
           deleted := false }]
      let included := includeOtherCandidates lp instructions expressions offset commonLength
        callOverhead (startIndices.drop 2) r.2 seed
      some { candidates := included.1, sequenceSize := commonLength,
             frameOverhead := frameOverhead, exprs := expressions }

/-- The escape-shortened common-prefix length computed by the
createOutlinedFunctions loop at a given offset (the value of
expressions.size() that the loop's advancement adds 1 to). -/
def commonLengthAt (lp : List IRange → LongestPrefix)
    (instructions : List Inst) (startIndices : List Nat)
    (candidateLength offset : Nat) : Nat :=
  (getOutlinableCommonPrefix lp instructions emptyEscapeAnalysis
    (startIndices.getD 0 0 + offset) (startIndices.getD 1 0 + offset)
    (candidateLength - offset)).1.length

/-- The greedy loop of createOutlinedFunctions, structurally recursive on a
fuel argument: while offset ≤ candidateLength - minLength, compute the common
prefix at the offset, emit an OutlinedFunction unless a check skips it, and in
either case advance offset by expressions.size() + 1 (an extra +1 to skip over
the instruction that did not match). -/
def createOutlinedFunctionsAux (lp : List IRange → LongestPrefix)
    (settings : OutliningSettings) (instructions : List Inst)
    (startIndices : List Nat) (candidateLength : Nat) :
    Nat → Nat → List OutlinedFunction
  | 0, _ => []
  | fuel + 1, offset =>
    if offset ≤ candidateLength - settings.minLength then
      match outlinedFunctionAt lp settings instructions startIndices candidateLength offset with
      | some f =>
        f :: createOutlinedFunctionsAux lp settings instructions startIndices candidateLength
          fuel (offset + commonLengthAt lp instructions startIndices candidateLength offset + 1)
      | none =>
        createOutlinedFunctionsAux lp settings instructions startIndices candidateLength
          fuel (offset + commonLengthAt lp instructions startIndices candidateLength offset + 1)
    else []

/-- HermesOutlinerTarget createOutlinedFunctions: run the greedy loop from
offset 0 (the fuel candidateLength + 1 bounds the number of iterations, since
every iteration advances the offset by at least 1). -/
def createOutlinedFunctions (lp : List IRange → LongestPrefix)
    (settings : OutliningSettings) (instructions : List Inst)
    (startIndices : List Nat) (candidateLength : Nat) : List OutlinedFunction :=
  createOutlinedFunctionsAux lp settings instructions startIndices candidateLength
    (candidateLength + 1) 0

/-- The sequence of offsets the createOutlinedFunctions loop examines: from a
given offset, the offset itself followed by the offsets examined after
advancing by the common-prefix length at that offset plus 1. -/
def examinedOffsets (lp : List IRange → LongestPrefix)
    (settings : OutliningSettings) (instructions : List Inst)
    (startIndices : List Nat) (candidateLength : Nat) :
    Nat → Nat → List Nat
  | 0, _ => []
  | fuel + 1, offset =>
    if offset ≤ candidateLength - settings.minLength then
      offset :: examinedOffsets lp settings instructions startIndices candidateLength
        fuel (offset + commonLengthAt lp instructions startIndices candidateLength offset + 1)
    else []

/-- Claim C2 as stated: along the offsets the loop examines, after an offset
skipped by the length check or the parameter check the next offset is the
current one plus exactly 1, and after an emitted function it is the current
one plus the common length plus 1. -/
def claimC2 (lp : List IRange → LongestPrefix) (settings : OutliningSettings)
    (instructions : List Inst) (startIndices : List Nat)
    (candidateLength : Nat) : Prop :=
  List.Chain'
    (fun o o' =>
      o' = if (outlinedFunctionAt lp settings instructions startIndices candidateLength o).isSome
        then o + commonLengthAt lp instructions startIndices candidateLength o + 1
        else o + 1)
    (examinedOffsets lp settings instructions startIndices candidateLength
      (candidateLength + 1) 0)

/-- The first candidate of an OutlinedFunction that is not pruned (the
"template" candidate buildOutlinedFunction clones). -/
def firstNonPrunedCandidate (functionInfo : OutlinedFunction) : Candidate :=
  (functionInfo.candidates.find? (fun c => !c.deleted)).getD default

/-- The function of the module that contains the instruction with the given
address. -/
def containingFunction (M : List IRFunc) (addr : Nat) : Option IRFunc :=
  M.find? (fun F => F.blocks.any (fun BB => BB.any (fun inst => inst.addr == addr)))

/-- The strict-mode setting of the function containing a candidate's first
instruction (firstIter getParent getParent isStrictMode). -/
def candidateStrictMode (M : List IRFunc) (instructions : List Inst)
    (c : Candidate) : Bool :=
  ((containingFunction M ((instructions.getD c.startIdx default).addr)).map
    IRFunc.strictMode).getD false

/-- The module-interned literal undefined (getLiteralUndefined). -/
def undefinedLiteral : Value := Value.literal 0

/-- buildOutlinedOperand: an Internal operand resolves to the already-cloned
instruction at its index; an External operand resolves to the parameter at its
index, creating it (extending the parameter count) when it does not exist yet;
a Value operand is copied verbatim. Returns the operand value and the new
parameter count. -/
def buildOutlinedOperand (operand : NOperand) (paramCount : Nat)
    (instructions : List Inst) : Value × Nat :=
  match operand with
  | NOperand.internal index =>
    (Value.instRef ((instructions.getD index default).addr), paramCount)
  | NOperand.external index =>
    if paramCount ≤ index then (Value.param index, index + 1)
    else (Value.param index, paramCount)
  | NOperand.value v => (v, paramCount)

/-- The cloning loop of buildOutlinedFunction: for each (template instruction,
expression) pair, materialize the new operands with buildOutlinedOperand and
append a clone of the instruction (same variety, new operands, a fresh address
cloneBase + position) to the block. Returns the cloned block and the number of
parameters created. -/
def buildOutlinedBody (cloneBase : Nat) :
    List (Inst × Expression) → List Inst → Nat → List Inst × Nat
  | [], blockInstrs, paramCount => (blockInstrs, paramCount)
  | p :: rest, blockInstrs, paramCount =>
    let ops := p.2.operands.foldl
      (fun (acc : List Value × Nat) operand =>
        let r := buildOutlinedOperand operand acc.2 blockInstrs
        (acc.1 ++ [r.1], r.2))
      ([], paramCount)
    let newInst : Inst := { addr := cloneBase + blockInstrs.length,
                            variety := p.1.variety, operands := ops.1 }
    buildOutlinedBody cloneBase rest (blockInstrs ++ [newInst]) ops.2

/-- A function created by buildOutlinedFunction: its name, the strict-mode
flag it inherited, the cloned body, the number of p-parameters created (the
trailing "this" parameter the builder also creates is left implicit) and the
operand of the final return instruction. -/
structure OutFunc where
  name : Nat
  strictMode : Bool
  body : List Inst
  paramCount : Nat
  returnValue : Value
deriving DecidableEq, Repr

/-- buildOutlinedFunction: take the first non-pruned candidate as template,
run the escape analysis on its range, inherit the strict mode of its
containing function, clone the range, and return the escaping cloned
instruction when the prefix has an escape offset or the literal undefined
otherwise. -/
def buildOutlinedFunction (lp : List IRange → LongestPrefix)
    (functionInfo : OutlinedFunction) (functionName : Nat)
    (M : List IRFunc) (instructions : List Inst) (cloneBase : Nat) : OutFunc :=
  let candidate := firstNonPrunedCandidate functionInfo
  let range := getRange instructions candidate.startIdx candidate.length
  let longest := lp (emptyEscapeAnalysis.addRange range).ranges
  let strictMode := candidateStrictMode M instructions candidate
  let built := buildOutlinedBody cloneBase (range.zip (numberRange range)) [] 0
  let returnValue : Value :=
    match longest.offset with
    | some i => Value.instRef ((built.1.getD i default).addr)
    | none => undefinedLiteral
  { name := functionName, strictMode := strictMode, body := built.1,
    paramCount := built.2, returnValue := returnValue }

/-- The argument-collection loop of outlineCandidate: walking the numbering of
the candidate range, each External operand seen for the first time (its index
equals the number of arguments collected so far) contributes the actual
operand at that position of the candidate's instruction. -/
def collectArguments : List (Inst × Expression) → List Value → List Value
  | [], arguments => arguments
  | p :: rest, arguments =>
    let arguments := p.2.operands.enum.foldl
      (fun (args : List Value) op =>
        match op.2 with
        | NOperand.external index =>
          if args.length ≤ index then args ++ [p.1.operands.getD op.1 default]
          else args
        | _ => args)
      arguments
    collectArguments rest arguments

/-- The escape-instruction search of outlineCandidate: the instruction of the
range whose expression index equals the escape offset, if any. -/
def findEscapeInst (range : List Inst) (offset : Option Nat) : Option Inst :=
  match offset with
  | some i => range[i]?
  | none => none

/-- The variety of the HBCCallDirectInst instructions the rewriter creates. -/
def hbcCallDirectVariety : Variety := Variety.other 1000000

/-- The net effect on one basic block of inserting the call before the
candidate's first instruction and erasing the candidate's instructions: the
contiguous run of the candidate's length starting at its first instruction is
replaced by the call instruction. Blocks not containing the first instruction
are unchanged. -/
def rewriteBlock (BB : List Inst) (startAddr length : Nat) (callInst : Inst) :
    List Inst :=
  match BB.findIdx? (fun inst => inst.addr == startAddr) with
  | some idx => BB.take idx ++ [callInst] ++ BB.drop (idx + length)
  | none => BB

/-- One step of replaceAllUsesWith on an operand value: a reference to the old
instruction becomes a reference to the new one. -/
def replaceUsesValue (oldAddr newAddr : Nat) (v : Value) : Value :=
  match v with
  | Value.instRef a => if a = oldAddr then Value.instRef newAddr else v
  | _ => v

/-- replaceAllUsesWith over the whole module: every operand referring to the
old instruction now refers to the new one. -/
def replaceAllUsesWith (M : List IRFunc) (oldAddr newAddr : Nat) : List IRFunc :=
  M.map (fun F =>
    { F with blocks := F.blocks.map (fun BB => BB.map (fun inst =>
        { inst with operands := inst.operands.map (replaceUsesValue oldAddr newAddr) })) })

/-- outlineCandidate: when the strict-mode setting of the candidate's
containing function differs from the outlined function's, return false with
the module untouched; otherwise collect the call arguments, insert the direct
call in place of the candidate's instructions, and redirect the uses of the
escaping instruction (if any) to the call's result. The fresh call instruction
gets the address callAddr. -/
def outlineCandidate (lp : List IRange → LongestPrefix) (candidate : Candidate)
    (function : OutFunc) (instructions : List Inst) (M : List IRFunc)
    (callAddr : Nat) : Bool × List IRFunc :=
  if candidateStrictMode M instructions candidate ≠ function.strictMode then
    (false, M)
  else
    let range := getRange instructions candidate.startIdx candidate.length
    let longest := lp (emptyEscapeAnalysis.addRange range).ranges
    let arguments := collectArguments (range.zip (numberRange range)) []
    let escapeInst := findEscapeInst range longest.offset
    let callInst : Inst :=
      { addr := callAddr
        variety := hbcCallDirectVariety
        operands := Value.funcRef function.name :: undefinedLiteral :: arguments }
    let M1 := M.map (fun F => { F with blocks := F.blocks.map (fun BB =>
        rewriteBlock BB ((instructions.getD candidate.startIdx default).addr)
          candidate.length callInst) })
    let M2 := match escapeInst with
      | some inst => replaceAllUsesWith M1 inst.addr callAddr
      | none => M1
    (true, M2)

/-- The result of processing one OutlinedFunction's candidates in
outlineModuleOnce: the lazily created function (if any candidate was reached),
the number of candidates outlined, the rewritten module and the next fresh
address. -/
structure CandidatesResult where
  function : Option OutFunc
  numOutlined : Nat
  modState : List IRFunc
  nextAddr : Nat
deriving DecidableEq, Repr

/-- The candidate loop of outlineModuleOnce for one OutlinedFunction: pruned
candidates are skipped; at the first live candidate the function is built
(lazily), and every live candidate is then attempted with outlineCandidate,
counting the successes. Fresh addresses: the clones take candidate.length
addresses from nextAddr and the call takes one more. -/
def outlineFunctionCandidates (lp : List IRange → LongestPrefix)
    (functionInfo : OutlinedFunction) (functionName : Nat)
    (instructions : List Inst) :
    List Candidate → Option OutFunc → Nat → List IRFunc → Nat → CandidatesResult
  | [], fn, numOutlined, M, nextAddr =>
    { function := fn, numOutlined := numOutlined, modState := M, nextAddr := nextAddr }
  | c :: rest, fn, numOutlined, M, nextAddr =>
    if c.deleted then
      outlineFunctionCandidates lp functionInfo functionName instructions
        rest fn numOutlined M nextAddr
    else
      let fn1 := match fn with
        | none => buildOutlinedFunction lp functionInfo functionName M instructions nextAddr
        | some f => f
      let r := outlineCandidate lp c fn1 instructions M (nextAddr + c.length)
      outlineFunctionCandidates lp functionInfo functionName instructions
        rest (some fn1) (if r.1 then numOutlined + 1 else numOutlined) r.2
        (nextAddr + c.length + 1)

/-- The per-round state of outlineModuleOnce: the module being rewritten, the
changed flag, the outlined functions created so far (each with the number of
its candidates that were outlined) and the fresh-address counter. -/
structure RoundState where
  modState : List IRFunc
  changed : Bool
  created : List (OutFunc × Nat)
  nextAddr : Nat
deriving DecidableEq, Repr

/-- The body of the outer loop of outlineModuleOnce for one OutlinedFunction:
skip it when its benefit is below 1, otherwise run the candidate loop, record
the created function (when one was built) with its outlined count, and set
changed when any candidate was outlined. \p getBenefit is the benefit
computation of the external llvm outliner. -/
def processOutlinedFunction (lp : List IRange → LongestPrefix)
    (getBenefit : OutlinedFunction → Nat) (functionName : Nat)
    (instructions : List Inst) (st : RoundState)
    (functionInfo : OutlinedFunction) : RoundState :=
  if getBenefit functionInfo < 1 then st
  else
    let r := outlineFunctionCandidates lp functionInfo functionName instructions
      functionInfo.candidates none 0 st.modState st.nextAddr
    { modState := r.modState
      changed := st.changed || decide (0 < r.numOutlined)
      created := st.created ++ (match r.function with
        | some fn => [(fn, r.numOutlined)]
        | none => [])
      nextAddr := r.nextAddr }

/-- outlineModuleOnce: convert the module to the parallel vectors, obtain the
OutlinedFunctions from the external suffix-tree engine (abstracted as
\p getFunctionsToOutline applied to the integer stream) and process each one
in order, starting from an unchanged module. -/
def outlineModuleOnce (lp : List IRange → LongestPrefix)
    (getBenefit : OutlinedFunction → Nat)
    (getFunctionsToOutline : List Nat → List OutlinedFunction)
    (functionName baseAddr : Nat)
    (M : List IRFunc) (settings : OutliningSettings) : RoundState :=
  let conv := convertModuleToUnsignedVec M settings
  let functions := getFunctionsToOutline conv.unsignedVec
  functions.foldl
    (processOutlinedFunction lp getBenefit functionName conv.instructions)
    { modState := M, changed := false, created := [], nextAddr := baseAddr }

/-- An interned property name (SymbolID). -/
abbrev SymbolID := Nat

/-- The property-flags bitset of a hidden-class property. -/
structure PropertyFlags where
  enumerable : Bool := false
  writable : Bool := false
  configurable : Bool := false
  accessor : Bool := false
  internalSetter : Bool := false
deriving DecidableEq, Repr

/-- A named property descriptor: the slot index of the value in the object's
property storage, and the property flags. -/
structure NamedPropertyDescriptor where
  slot : Nat
  flags : PropertyFlags
deriving DecidableEq, Repr

instance : Inhabited NamedPropertyDescriptor := ⟨⟨0, {}⟩⟩

/-- Modelled from the spec: DictPropertyMap (not under src/), an
insertion-ordered mapping from SymbolID to NamedPropertyDescriptor. -/
structure DictPropertyMap where
  entries : List (SymbolID × NamedPropertyDescriptor)
deriving DecidableEq, Repr

/-- Modelled from the spec: DictPropertyMap find, the position of the entry
with the given name, if present. -/
def DictPropertyMap.find (pm : DictPropertyMap) (name : SymbolID) : Option Nat :=
  pm.entries.findIdx? (fun e => e.1 == name)

/-- Modelled from the spec: DictPropertyMap getDescriptorPair, the
(SymbolID, descriptor) pair at a position. -/
def DictPropertyMap.getDescriptorPair (pm : DictPropertyMap) (pos : Nat) :
    SymbolID × NamedPropertyDescriptor :=
  pm.entries.getD pos default

/-- The per-class flags of a hidden class. -/
structure ClassFlags where
  dictionaryMode : Bool := false
  hasIndexLikeProperties : Bool := false
  allNonConfigurable : Bool := false
  allReadOnly : Bool := false
deriving DecidableEq, Repr

/-- A hidden class, restricted to the state tryFindPropertyFast consults: its
flags, its property count, and its lazily materialized property map (none when
the map has not been allocated). -/
structure HiddenClass where
  flags : ClassFlags
  numProperties : Nat
  propertyMap : Option DictPropertyMap
deriving DecidableEq, Repr

/-- HiddenClass tryFindPropertyFast: the optimistic fast path of findProperty.
It consults only an already-allocated property map (never materializing one):
when the map exists and contains the name, it yields the stored descriptor
(the out-parameter desc and the true return of the C++ version); in every
other case it yields none (the false return). The receiver is const and no
runtime is available, so the class cannot be modified or a map allocated. -/
def HiddenClass.tryFindPropertyFast (self : HiddenClass) (name : SymbolID) :
    Option NamedPropertyDescriptor :=
  match self.propertyMap with
  | some pm =>
    match pm.find name with
    | some pos => some (pm.getDescriptorPair pos).2
    | none => none
  | none => none

/-- A longestPrefix model for the concrete examples below: the whole most
recently added range is escape-clean and nothing escapes. -/
def lpNoEscape : List IRange → LongestPrefix :=
  fun ranges => { length := (ranges.headD []).length, offset := none }

/-- Settings for the C2 example: minLength 3, parameter bounds [0, 10]. -/
def c2Settings : OutliningSettings :=
  { placeNearCaller := false, maxRounds := 1, minLength := 3, minParameters := 0,
    maxParameters := 10 }

/-- The suffix-tree instruction list for the C2 example: two candidate ranges
of length 6 (at start indices 0 and 6) that match for exactly two instructions
and then differ, and match again from position 3 on. -/
def c2Instrs : List Inst :=
  [⟨0, Variety.other 1, []⟩, ⟨1, Variety.other 2, []⟩, ⟨2, Variety.other 3, []⟩,
   ⟨3, Variety.other 4, []⟩, ⟨4, Variety.other 5, []⟩, ⟨5, Variety.other 6, []⟩,
   ⟨6, Variety.other 1, []⟩, ⟨7, Variety.other 2, []⟩, ⟨8, Variety.other 99, []⟩,
   ⟨9, Variety.other 4, []⟩, ⟨10, Variety.other 5, []⟩, ⟨11, Variety.other 6, []⟩]

/-- A module for the C4/C5 witnesses: one block with two equivalent legal
instructions, an illegal phi, and a further legal instruction. -/
def c4Module : List IRFunc :=
  [{ strictMode := false
     blocks := [[⟨10, Variety.other 7, [Value.literal 3]⟩,
                 ⟨11, Variety.other 7, [Value.literal 3]⟩,
                 ⟨12, Variety.phi, []⟩,
                 ⟨13, Variety.other 8, []⟩]] }]

/-- A module for the C7/C8/C10 witnesses: one non-strict function with one
block of three distinct legal instructions. -/
def c10Module : List IRFunc :=
  [{ strictMode := false
     blocks := [[⟨20, Variety.other 1, []⟩,
                 ⟨21, Variety.other 2, []⟩,
                 ⟨22, Variety.other 3, []⟩]] }]

/-- The engine output for the C10 witness: one OutlinedFunction with a single
live candidate covering the first two instructions of c10Module. -/
def c10FunctionInfo : OutlinedFunction :=
  { candidates := [{ startIdx := 0, length := 2, callOverhead := 2, deleted := false }]
    sequenceSize := 2
    frameOverhead := 5
    exprs := [] }

/-- A strict outlined function for the C7 witness, mismatching the non-strict
c10Module. -/
def strictOutFunc : OutFunc :=
  { name := 0, strictMode := true, body := [], paramCount := 0,
    returnValue := undefinedLiteral }

/-- A hidden class for the C9 witness: a materialized property map with one
property, name 5, descriptor slot 0 with writable flag. -/
def c9Class : HiddenClass :=
  { flags := {}
    numProperties := 1
    propertyMap := some { entries := [(5, ⟨0, { writable := true }⟩)] } }

/-- The invariant the conversion loop of convertModuleToUnsignedVec maintains
(as long as its asserted precondition legal < illegal holds): the counters
have not crossed and have not wrapped below the reserved keys, the parallel
vectors have equal length, the map's values are exactly 0..legal-1 in order,
its keys are pairwise inequivalent, every legal entry of the stream carries
the number of its equivalence class's map entry, every illegal entry lies
strictly between the current illegal counter and 2^32 - 3, and the numbers of
the illegal entries strictly decrease along the stream (each one was the value
of the illegal counter when it was emitted, and the counter only counts
down). -/
def ConvInv (st : ConvState) : Prop :=
  st.legal ≤ st.illegal
  ∧ st.illegal ≤ UINT32_SIZE - 3
  ∧ st.unsignedVec.length = st.instructions.length
  ∧ st.map.map Prod.snd = List.range st.legal
  ∧ st.map.Pairwise (fun a b => isEqualInst a.1 b.1 = false)
  ∧ (∀ p ∈ st.unsignedVec.zip st.instructions,
      (instructionIsLegalToOutline p.2 = true →
        ∃ e ∈ st.map, isEqualInst e.1 p.2 = true ∧ e.2 = p.1)
      ∧ (instructionIsLegalToOutline p.2 = false →
        st.illegal < p.1 ∧ p.1 ≤ UINT32_SIZE - 3))
  ∧ (st.unsignedVec.zip st.instructions).Pairwise
      (fun p q => instructionIsLegalToOutline p.2 = false →
        instructionIsLegalToOutline q.2 = false → q.1 < p.1)

/-- The External operand indices occurring in a sequence of expressions, in
order of occurrence. -/
def externalIndices (expressions : List Expression) : List Nat :=
  (expressions.map (fun e => e.operands.filterMap
    (fun operand => match operand with
      | NOperand.external index => some index
      | _ => none))).flatten

/-- The OutlinedFunction created by the C2/C3 example at offset 3: both ranges
agree on the three instructions of varieties 4, 5, 6 and there are no
parameters. -/
def c3Function : OutlinedFunction :=
  { candidates := [⟨3, 3, 2, false⟩, ⟨9, 3, 2, false⟩]
    sequenceSize := 3
    frameOverhead := 5
    exprs := [⟨Variety.other 4, []⟩, ⟨Variety.other 5, []⟩, ⟨Variety.other 6, []⟩] }

theorem foldl_skip_small_blocks (minLength : Nat) (L : List (List Inst)) (st : ConvState) :
    L.foldl (fun st BB => if BB.length < minLength then st else BB.foldl convStep st) st
      = ((L.filter (fun BB => !(BB.length < minLength))).flatten).foldl convStep st := by
  induction L generalizing st with
  | nil => rfl
  | cons BB L ih =>
    by_cases h : BB.length < minLength
    · simp [h, ih]
    · simp [h, ih, List.foldl_append]

theorem foldl_blocks_flatten (M : List IRFunc) (g : ConvState → List Inst → ConvState)
    (st : ConvState) :
    M.foldl (fun st F => F.blocks.foldl g st) st
      = ((M.map IRFunc.blocks).flatten).foldl g st := by
  induction M generalizing st with
  | nil => rfl
  | cons F M ih => simp [ih, List.foldl_append]

theorem convertModule_eq_foldl_traversal (M : List IRFunc) (settings : OutliningSettings) :
    convertModuleToUnsignedVec M settings
      = (moduleTraversal M settings).foldl convStep initConvState := by
  unfold convertModuleToUnsignedVec moduleTraversal includedBlocks
  rw [foldl_blocks_flatten, foldl_skip_small_blocks]

theorem foldl_convStep_collapse (l : List Inst) (st : ConvState) :
    (l.foldl convStep st).instructions
        = st.instructions ++ collapseEntries st.lastWasIllegal l
    ∧ (l.foldl convStep st).unsignedVec.length
        = st.unsignedVec.length + (collapseEntries st.lastWasIllegal l).length := by
  induction l generalizing st with
  | nil => simp [collapseEntries]
  | cons inst rest ih =>
    rw [List.foldl_cons]
    by_cases hleg : instructionIsLegalToOutline inst
    · have hch : (convStep st inst).instructions = st.instructions ++ [inst]
          ∧ (convStep st inst).unsignedVec.length = st.unsignedVec.length + 1
          ∧ (convStep st inst).lastWasIllegal = false := by
        rcases hfind : mapFind st.map inst with _ | entry <;> simp [convStep, hleg, hfind]
      have hrec := ih (convStep st inst)
      rw [hch.1, hch.2.1, hch.2.2] at hrec
      simp only [collapseEntries, hleg, if_true]
      refine ⟨?_, ?_⟩
      · rw [hrec.1]; simp
      · rw [hrec.2]; simp; omega
    · rw [Bool.not_eq_true] at hleg
      by_cases hlast : st.lastWasIllegal
      · have hconv : convStep st inst = st := by simp [convStep, hleg, hlast]
        rw [hconv]
        have hrec := ih st
        rw [hlast] at hrec
        simp only [collapseEntries, hleg, hlast]
        simpa using hrec
      · rw [Bool.not_eq_true] at hlast
        have hch : (convStep st inst).instructions = st.instructions ++ [inst]
            ∧ (convStep st inst).unsignedVec.length = st.unsignedVec.length + 1
            ∧ (convStep st inst).lastWasIllegal = true := by
          simp [convStep, hleg, hlast]
        have hrec := ih (convStep st inst)
        rw [hch.1, hch.2.1, hch.2.2] at hrec
        simp only [collapseEntries, hleg, hlast]
        refine ⟨?_, ?_⟩
        · rw [hrec.1]; simp
        · rw [hrec.2]; simp; omega

/-- C1 counterexample: on a module whose single included block is one illegal
(phi) instruction, the maximal illegal run at the start of the traversal
produces no entry at all, although the claim demands an entry for its first
instruction. -/
theorem claimC1_false_at_phiOnlyModule : ¬ claimC1 phiOnlyModule c1Settings := by
  unfold claimC1
  decide

theorem UINT32_SIZE_eq : UINT32_SIZE = 4294967296 := by norm_num [UINT32_SIZE]

theorem isEqualInst_iff (a b : Inst) :
    isEqualInst a b = true
      ↔ a.variety = b.variety ∧ a.operands.length = b.operands.length
          ∧ getLiteralVec a = getLiteralVec b := by
  unfold isEqualInst
  by_cases h : a.variety = b.variety ∧ a.operands.length = b.operands.length
  · rw [if_pos h]
    simp [h.1, h.2]
  · rw [if_neg h]
    simp only [Bool.false_eq_true, false_iff]
    rintro ⟨h1, h2, h3⟩
    exact h ⟨h1, h2⟩

theorem isEqualInst_refl (a : Inst) : isEqualInst a a = true := by
  simp [isEqualInst_iff]

theorem isEqualInst_symm {a b : Inst} (h : isEqualInst a b = true) :
    isEqualInst b a = true := by
  rw [isEqualInst_iff] at h ⊢
  exact ⟨h.1.symm, h.2.1.symm, h.2.2.symm⟩

theorem isEqualInst_trans {a b c : Inst} (h₁ : isEqualInst a b = true)
    (h₂ : isEqualInst b c = true) : isEqualInst a c = true := by
  rw [isEqualInst_iff] at h₁ h₂ ⊢
  exact ⟨h₁.1.trans h₂.1, h₁.2.1.trans h₂.2.1, h₁.2.2.trans h₂.2.2⟩

theorem isEqualInst_congr_right {x y : Inst} (h : isEqualInst x y = true) (z : Inst) :
    isEqualInst z x = isEqualInst z y := by
  by_cases hx : isEqualInst z x = true
  · rw [hx, isEqualInst_trans hx h]
  · by_cases hy : isEqualInst z y = true
    · exact absurd (isEqualInst_trans hy (isEqualInst_symm h)) hx
    · rw [Bool.not_eq_true] at hx hy
      rw [hx, hy]

theorem equiv_entry_unique (m : List (Inst × Nat))
    (hpw : m.Pairwise (fun a b => isEqualInst a.1 b.1 = false))
    {e₁ e₂ : Inst × Nat} (h₁ : e₁ ∈ m) (h₂ : e₂ ∈ m) {x : Inst}
    (hq₁ : isEqualInst e₁.1 x = true) (hq₂ : isEqualInst e₂.1 x = true) :
    e₁ = e₂ := by
  induction m with
  | nil => cases h₁
  | cons e rest ih =>
    rw [List.pairwise_cons] at hpw
    rcases List.mem_cons.mp h₁ with h₁e | h₁r
    · rcases List.mem_cons.mp h₂ with h₂e | h₂r
      · rw [h₁e, h₂e]
      · exfalso
        have hfalse := hpw.1 e₂ h₂r
        have htrue : isEqualInst e₁.1 e₂.1 = true :=
          isEqualInst_trans hq₁ (isEqualInst_symm hq₂)
        rw [h₁e] at htrue
        rw [htrue] at hfalse
        simp at hfalse
    · rcases List.mem_cons.mp h₂ with h₂e | h₂r
      · exfalso
        have hfalse := hpw.1 e₁ h₁r
        have htrue : isEqualInst e₂.1 e₁.1 = true :=
          isEqualInst_trans hq₂ (isEqualInst_symm hq₁)
        rw [h₂e] at htrue
        rw [htrue] at hfalse
        simp at hfalse
      · exact ih hpw.2 h₁r h₂r

theorem entry_eq_of_snd_eq {m : List (Inst × Nat)} {n : Nat}
    (hr : m.map Prod.snd = List.range n) {e₁ e₂ : Inst × Nat}
    (h₁ : e₁ ∈ m) (h₂ : e₂ ∈ m) (hv : e₁.2 = e₂.2) : e₁ = e₂ := by
  have hnd : (m.map Prod.snd).Nodup := by rw [hr]; exact List.nodup_range n
  exact List.inj_on_of_nodup_map hnd h₁ h₂ hv

theorem mapFind_mem {m : List (Inst × Nat)} {x : Inst} {e : Inst × Nat}
    (h : mapFind m x = some e) : e ∈ m :=
  List.mem_of_find?_eq_some h

theorem mapFind_pred {m : List (Inst × Nat)} {x : Inst} {e : Inst × Nat}
    (h : mapFind m x = some e) : isEqualInst e.1 x = true := by
  unfold mapFind at h
  have h' := List.find?_some h
  exact h'

theorem mapFind_none {m : List (Inst × Nat)} {x : Inst}
    (h : mapFind m x = none) : ∀ e ∈ m, isEqualInst e.1 x = false := by
  intro e he
  have := List.find?_eq_none.mp h e he
  rw [Bool.not_eq_true] at this
  exact this

theorem mem_zip_of_mem_left {l₁ : List Nat} {l₂ : List Inst}
    (hlen : l₁.length = l₂.length) {v : Nat} (hv : v ∈ l₁) :
    ∃ b, (v, b) ∈ l₁.zip l₂ := by
  obtain ⟨i, hi, rfl⟩ := List.mem_iff_getElem.mp hv
  have hi₂ : i < l₂.length := by omega
  have hiz : i < (l₁.zip l₂).length := by
    rw [List.length_zip]
    omega
  refine ⟨l₂[i], ?_⟩
  have hz : (l₁.zip l₂)[i] = (l₁[i], l₂[i]) := List.getElem_zip
  exact hz ▸ List.getElem_mem hiz

theorem convInv_init : ConvInv initConvState := by
  unfold ConvInv initConvState
  refine ⟨by decide, by decide, rfl, rfl, List.Pairwise.nil, ?_, List.Pairwise.nil⟩
  intro p hp
  simp at hp

theorem convInv_step (st : ConvState) (inst : Inst) (hlt : st.legal < st.illegal)
    (inv : ConvInv st) : ConvInv (convStep st inst) := by
  obtain ⟨hle, hil, hlen, hrange, hpw, hent, hdec⟩ := inv
  by_cases hleg : instructionIsLegalToOutline inst
  · rcases hfind : mapFind st.map inst with _ | entry
    · have hmod : (st.legal + 1) % UINT32_SIZE = st.legal + 1 := by
        apply Nat.mod_eq_of_lt
        rw [UINT32_SIZE_eq] at *
        omega
      have hstep : convStep st inst = { st with
          unsignedVec := st.unsignedVec ++ [st.legal]
          instructions := st.instructions ++ [inst]
          map := st.map ++ [(inst, st.legal)]
          legal := (st.legal + 1) % UINT32_SIZE
          lastWasIllegal := false } := by
        simp [convStep, hleg, hfind]
      rw [hstep]
      refine ⟨?_, ?_, ?_, ?_, ?_, ?_, ?_⟩
      · simp only [hmod]
        omega
      · exact hil
      · simp [hlen]
      · simp only [hmod, List.map_append, hrange, List.range_succ]
        rfl
      · rw [List.pairwise_append]
        refine ⟨hpw, List.pairwise_singleton _ _, ?_⟩
        intro a ha b hb
        rw [List.mem_singleton] at hb
        subst hb
        exact mapFind_none hfind a ha
      · intro p hp
        simp only at hp
        rw [List.zip_append hlen] at hp
        rcases List.mem_append.mp hp with hp | hp
        · refine ⟨?_, ?_⟩
          · intro hpleg
            obtain ⟨e, hem, heq, hev⟩ := (hent p hp).1 hpleg
            exact ⟨e, List.mem_append_left _ hem, heq, hev⟩
          · intro hpleg
            exact (hent p hp).2 hpleg
        · rw [List.zip_cons_cons, List.zip_nil_right, List.mem_singleton] at hp
          subst hp
          refine ⟨?_, ?_⟩
          · intro _
            exact ⟨(inst, st.legal), List.mem_append_right _ (List.mem_singleton.mpr rfl),
              isEqualInst_refl inst, rfl⟩
          · intro hpleg
            rw [hleg] at hpleg
            cases hpleg
      · simp only
        rw [List.zip_append hlen, List.zip_cons_cons, List.zip_nil_right]
        rw [List.pairwise_append]
        refine ⟨hdec, List.pairwise_singleton _ _, ?_⟩
        intro a ha b hb
        rw [List.mem_singleton] at hb
        subst hb
        intro _ hbi
        rw [hleg] at hbi
        cases hbi
    · have hstep : convStep st inst = { st with
          unsignedVec := st.unsignedVec ++ [entry.2]
          instructions := st.instructions ++ [inst]
          lastWasIllegal := false } := by
        simp [convStep, hleg, hfind]
      rw [hstep]
      refine ⟨hle, hil, by simp [hlen], hrange, hpw, ?_, ?_⟩
      · intro p hp
        simp only at hp
        rw [List.zip_append hlen] at hp
        rcases List.mem_append.mp hp with hp | hp
        · exact hent p hp
        · rw [List.zip_cons_cons, List.zip_nil_right, List.mem_singleton] at hp
          subst hp
          refine ⟨?_, ?_⟩
          · intro _
            exact ⟨entry, mapFind_mem hfind, mapFind_pred hfind, rfl⟩
          · intro hpleg
            rw [hleg] at hpleg
            cases hpleg
      · simp only
        rw [List.zip_append hlen, List.zip_cons_cons, List.zip_nil_right]
        rw [List.pairwise_append]
        refine ⟨hdec, List.pairwise_singleton _ _, ?_⟩
        intro a ha b hb
        rw [List.mem_singleton] at hb
        subst hb
        intro _ hbi
        rw [hleg] at hbi
        cases hbi
  · rw [Bool.not_eq_true] at hleg
    by_cases hlast : st.lastWasIllegal
    · have hconv : convStep st inst = st := by simp [convStep, hleg, hlast]
      rw [hconv]
      exact ⟨hle, hil, hlen, hrange, hpw, hent, hdec⟩
    · rw [Bool.not_eq_true] at hlast
      have hmod : (st.illegal + (UINT32_SIZE - 1)) % UINT32_SIZE = st.illegal - 1 := by
        have h1 : 1 ≤ st.illegal := by omega
        have h2 : st.illegal + (UINT32_SIZE - 1) = UINT32_SIZE + (st.illegal - 1) := by
          rw [UINT32_SIZE_eq] at *
          omega
        rw [h2, Nat.add_mod_left]
        apply Nat.mod_eq_of_lt
        rw [UINT32_SIZE_eq] at *
        omega
      have hstep : convStep st inst = { st with
          unsignedVec := st.unsignedVec ++ [st.illegal]
          instructions := st.instructions ++ [inst]
          illegal := (st.illegal + (UINT32_SIZE - 1)) % UINT32_SIZE
          lastWasIllegal := true } := by
        simp [convStep, hleg, hlast]
      rw [hstep]
      refine ⟨?_, ?_, by simp [hlen], hrange, hpw, ?_, ?_⟩
      · simp only [hmod]
        omega
      · simp only [hmod]
        omega
      · intro p hp
        simp only [hmod] at hp ⊢
        rw [List.zip_append hlen] at hp
        rcases List.mem_append.mp hp with hp | hp
        · refine ⟨(hent p hp).1, ?_⟩
          intro hpleg
          have := (hent p hp).2 hpleg
          omega
        · rw [List.zip_cons_cons, List.zip_nil_right, List.mem_singleton] at hp
          subst hp
          refine ⟨?_, ?_⟩
          · intro hpleg
            rw [hleg] at hpleg
            cases hpleg
          · intro _
            constructor
            · omega
            · exact hil
      · simp only
        rw [List.zip_append hlen, List.zip_cons_cons, List.zip_nil_right]
        rw [List.pairwise_append]
        refine ⟨hdec, List.pairwise_singleton _ _, ?_⟩
        intro a ha b hb
        rw [List.mem_singleton] at hb
        subst hb
        intro hai _
        exact ((hent a ha).2 hai).1

theorem convInv_foldl (l : List Inst) (st : ConvState)
    (h : convAssertsOK st l = true) (inv : ConvInv st) :
    ConvInv (l.foldl convStep st) := by
  induction l generalizing st with
  | nil => exact inv
  | cons inst rest ih =>
    simp only [convAssertsOK, Bool.and_eq_true, decide_eq_true_eq] at h
    exact ih (convStep st inst) h.2 (convInv_step st inst h.1 inv)

theorem convInv_legal_lt {st : ConvState} (inv : ConvInv st) :
    ∀ p ∈ st.unsignedVec.zip st.instructions,
    instructionIsLegalToOutline p.2 = true → p.1 < st.legal := by
  obtain ⟨_, _, _, hrange, _, hent, _⟩ := inv
  intro p hp hpleg
  obtain ⟨e, hem, _, hev⟩ := (hent p hp).1 hpleg
  have hmem : e.2 ∈ st.map.map Prod.snd := List.mem_map_of_mem Prod.snd hem
  rw [hrange] at hmem
  rw [← hev]
  exact List.mem_range.mp hmem

/-- C1 (amended): in the linearization, every legal instruction gets an entry,
and an illegal instruction gets an entry exactly when it is not preceded (in
the block-filtered traversal) by another illegal instruction or the start of
the traversal: the first instruction of a maximal illegal run gets the single
entry of the run unless the run starts the traversal, in which case the whole
run is omitted; the two parallel vectors have the same length; and, under the
loop's asserted precondition legal < illegal, the number of every illegal
entry is fresh and unique - it differs from the number of every other entry of
the stream, legal or illegal. -/
theorem convertModuleToUnsignedVec_collapse (M : List IRFunc)
    (settings : OutliningSettings) :
    (convertModuleToUnsignedVec M settings).instructions
        = collapseEntries true (moduleTraversal M settings)
    ∧ (convertModuleToUnsignedVec M settings).unsignedVec.length
        = (convertModuleToUnsignedVec M settings).instructions.length
    ∧ (convAssertsOK initConvState (moduleTraversal M settings) = true →
        ((convertModuleToUnsignedVec M settings).unsignedVec.zip
            (convertModuleToUnsignedVec M settings).instructions).Pairwise
          (fun p q =>
            instructionIsLegalToOutline p.2 = false
              ∨ instructionIsLegalToOutline q.2 = false → p.1 ≠ q.1)) := by
  refine ⟨?_, ?_, ?_⟩
  · rw [convertModule_eq_foldl_traversal]
    have h := foldl_convStep_collapse (moduleTraversal M settings) initConvState
    have hlast : initConvState.lastWasIllegal = true := rfl
    have hinstr : initConvState.instructions = ([] : List Inst) := rfl
    rw [hlast, hinstr] at h
    simpa using h.1
  · rw [convertModule_eq_foldl_traversal]
    have h := foldl_convStep_collapse (moduleTraversal M settings) initConvState
    have hlast : initConvState.lastWasIllegal = true := rfl
    have hinstr : initConvState.instructions = ([] : List Inst) := rfl
    have hvec : initConvState.unsignedVec = ([] : List Nat) := rfl
    rw [hlast, hinstr, hvec] at h
    simp at h
    rw [h.1]
    exact h.2
  · intro h
    have hinv := convInv_foldl _ _ h convInv_init
    rw [← convertModule_eq_foldl_traversal] at hinv
    have hlegalBound := convInv_legal_lt hinv
    obtain ⟨hle, hil, hlen, hrange, hpw, hent, hdec⟩ := hinv
    rw [List.pairwise_iff_getElem] at hdec ⊢
    intro i j hi hj hij
    have hpmem := List.getElem_mem hi
    have hqmem := List.getElem_mem hj
    intro hor
    by_cases hpl : instructionIsLegalToOutline
        (((convertModuleToUnsignedVec M settings).unsignedVec.zip
          (convertModuleToUnsignedVec M settings).instructions)[i]).2 = true
    · by_cases hql : instructionIsLegalToOutline
          (((convertModuleToUnsignedVec M settings).unsignedVec.zip
            (convertModuleToUnsignedVec M settings).instructions)[j]).2 = true
      · rcases hor with hpill | hqill
        · rw [hpl] at hpill
          cases hpill
        · rw [hql] at hqill
          cases hqill
      · rw [Bool.not_eq_true] at hql
        have h1 := hlegalBound _ hpmem hpl
        have h2 := (hent _ hqmem).2 hql
        omega
    · rw [Bool.not_eq_true] at hpl
      by_cases hql : instructionIsLegalToOutline
          (((convertModuleToUnsignedVec M settings).unsignedVec.zip
            (convertModuleToUnsignedVec M settings).instructions)[j]).2 = true
      · have h1 := hlegalBound _ hqmem hql
        have h2 := (hent _ hpmem).2 hpl
        omega
      · rw [Bool.not_eq_true] at hql
        have hlt := hdec i j hi hj hij hpl hql
        omega

/-- Witness for C1 at the concrete module c4Module: the lone illegal entry's
number 2^32 - 3 differs from every other number of the stream. -/
theorem convertModuleToUnsignedVec_collapse_witness :
    ((convertModuleToUnsignedVec c4Module c1Settings).unsignedVec.zip
        (convertModuleToUnsignedVec c4Module c1Settings).instructions).Pairwise
      (fun p q =>
        instructionIsLegalToOutline p.2 = false
          ∨ instructionIsLegalToOutline q.2 = false → p.1 ≠ q.1) :=
  (convertModuleToUnsignedVec_collapse c4Module c1Settings).2.2 (by decide)

/-- C5: under the loop's asserted precondition (legal < illegal before every
instruction), every integer in the linearized stream differs from the
suffix-tree DenseMap sentinel keys 2^32 - 1 (empty) and 2^32 - 2 (tombstone),
and no number assigned to a legal instruction ever equals a number assigned to
an illegal instruction. -/
theorem convertModuleToUnsignedVec_sentinel_safe (M : List IRFunc)
    (settings : OutliningSettings)
    (h : convAssertsOK initConvState (moduleTraversal M settings) = true) :
    (∀ v ∈ (convertModuleToUnsignedVec M settings).unsignedVec,
        v ≠ unsignedEmptyKey ∧ v ≠ unsignedTombstoneKey)
    ∧ (∀ p ∈ (convertModuleToUnsignedVec M settings).unsignedVec.zip
          (convertModuleToUnsignedVec M settings).instructions,
       ∀ q ∈ (convertModuleToUnsignedVec M settings).unsignedVec.zip
          (convertModuleToUnsignedVec M settings).instructions,
       instructionIsLegalToOutline p.2 = true →
       instructionIsLegalToOutline q.2 = false → p.1 ≠ q.1) := by
  have hinv := convInv_foldl _ _ h convInv_init
  rw [← convertModule_eq_foldl_traversal] at hinv
  obtain ⟨hle, hil, hlen, hrange, hpw, hent, hdec⟩ := hinv
  have hlegal : ∀ p ∈ (convertModuleToUnsignedVec M settings).unsignedVec.zip
      (convertModuleToUnsignedVec M settings).instructions,
      instructionIsLegalToOutline p.2 = true →
      p.1 < (convertModuleToUnsignedVec M settings).legal := by
    intro p hp hpleg
    obtain ⟨e, hem, _, hev⟩ := (hent p hp).1 hpleg
    have hmem : e.2 ∈ (convertModuleToUnsignedVec M settings).map.map Prod.snd :=
      List.mem_map_of_mem Prod.snd hem
    rw [hrange] at hmem
    rw [← hev]
    exact List.mem_range.mp hmem
  constructor
  · intro v hv
    obtain ⟨b, hb⟩ := mem_zip_of_mem_left hlen hv
    by_cases hbleg : instructionIsLegalToOutline b = true
    · have hlt := hlegal (v, b) hb hbleg
      unfold unsignedEmptyKey unsignedTombstoneKey at *
      rw [UINT32_SIZE_eq] at *
      omega
    · rw [Bool.not_eq_true] at hbleg
      have := (hent (v, b) hb).2 hbleg
      unfold unsignedEmptyKey unsignedTombstoneKey at *
      rw [UINT32_SIZE_eq] at *
      omega
  · intro p hp q hq hpleg hqleg
    have hp1 := hlegal p hp hpleg
    have hq1 := (hent q hq).2 hqleg
    omega

/-- Witness for C5 at the concrete module c4Module (two equivalent legal
instructions, a phi, one further legal instruction). -/
theorem convertModuleToUnsignedVec_sentinel_safe_witness :
    (∀ v ∈ (convertModuleToUnsignedVec c4Module c1Settings).unsignedVec,
        v ≠ unsignedEmptyKey ∧ v ≠ unsignedTombstoneKey)
    ∧ (∀ p ∈ (convertModuleToUnsignedVec c4Module c1Settings).unsignedVec.zip
          (convertModuleToUnsignedVec c4Module c1Settings).instructions,
       ∀ q ∈ (convertModuleToUnsignedVec c4Module c1Settings).unsignedVec.zip
          (convertModuleToUnsignedVec c4Module c1Settings).instructions,
       instructionIsLegalToOutline p.2 = true →
       instructionIsLegalToOutline q.2 = false → p.1 ≠ q.1) :=
  convertModuleToUnsignedVec_sentinel_safe c4Module c1Settings (by decide)

/-- C4: two legal instructions of the stream get the same integer exactly when
they have the same variety, the same operand count and the same
(position, literal pointer) sequence for their literal operands; and the
DenseMap sentinel keys compare equal only by identity. -/
theorem convertModuleToUnsignedVec_equiv_iff (M : List IRFunc)
    (settings : OutliningSettings)
    (h : convAssertsOK initConvState (moduleTraversal M settings) = true) :
    (∀ p ∈ (convertModuleToUnsignedVec M settings).unsignedVec.zip
        (convertModuleToUnsignedVec M settings).instructions,
      ∀ q ∈ (convertModuleToUnsignedVec M settings).unsignedVec.zip
        (convertModuleToUnsignedVec M settings).instructions,
      instructionIsLegalToOutline p.2 = true →
      instructionIsLegalToOutline q.2 = true →
      (p.1 = q.1
        ↔ p.2.variety = q.2.variety ∧ p.2.operands.length = q.2.operands.length
            ∧ getLiteralVec p.2 = getLiteralVec q.2))
    ∧ (∀ a b : InstKey,
        (a = InstKey.emptyKey ∨ a = InstKey.tombstoneKey
          ∨ b = InstKey.emptyKey ∨ b = InstKey.tombstoneKey) →
        (InstKey.isEqual a b = true ↔ a = b)) := by
  have hinv := convInv_foldl _ _ h convInv_init
  rw [← convertModule_eq_foldl_traversal] at hinv
  obtain ⟨hle, hil, hlen, hrange, hpw, hent, hdec⟩ := hinv
  constructor
  · intro p hp q hq hpleg hqleg
    obtain ⟨ep, hepm, hepq, hepv⟩ := (hent p hp).1 hpleg
    obtain ⟨eq', heqm, heqq, heqv⟩ := (hent q hq).1 hqleg
    rw [← isEqualInst_iff]
    constructor
    · intro hpq
      have hee : ep = eq' := entry_eq_of_snd_eq hrange hepm heqm (by omega)
      rw [hee] at hepq
      exact isEqualInst_trans (isEqualInst_symm hepq) heqq
    · intro hpq
      have h1 : isEqualInst ep.1 q.2 = true := isEqualInst_trans hepq hpq
      have hee : ep = eq' :=
        equiv_entry_unique (convertModuleToUnsignedVec M settings).map hpw hepm heqm h1 heqq
      rw [hee] at hepv
      omega
  · intro a b hab
    constructor
    · intro hiseq
      cases a <;> cases b <;> simp_all [InstKey.isEqual]
    · intro heq
      subst heq
      cases a <;> simp_all [InstKey.isEqual, isEqualInst_refl]

/-- Witness for C4 at the concrete module c4Module: its two equivalent legal
instructions share a number. -/
theorem convertModuleToUnsignedVec_equiv_iff_witness :
    (∀ p ∈ (convertModuleToUnsignedVec c4Module c1Settings).unsignedVec.zip
        (convertModuleToUnsignedVec c4Module c1Settings).instructions,
      ∀ q ∈ (convertModuleToUnsignedVec c4Module c1Settings).unsignedVec.zip
        (convertModuleToUnsignedVec c4Module c1Settings).instructions,
      instructionIsLegalToOutline p.2 = true →
      instructionIsLegalToOutline q.2 = true →
      (p.1 = q.1
        ↔ p.2.variety = q.2.variety ∧ p.2.operands.length = q.2.operands.length
            ∧ getLiteralVec p.2 = getLiteralVec q.2))
    ∧ (∀ a b : InstKey,
        (a = InstKey.emptyKey ∨ a = InstKey.tombstoneKey
          ∨ b = InstKey.emptyKey ∨ b = InstKey.tombstoneKey) →
        (InstKey.isEqual a b = true ↔ a = b)) :=
  convertModuleToUnsignedVec_equiv_iff c4Module c1Settings (by decide)

theorem createOutlinedFunctionsAux_eq_filterMap (lp : List IRange → LongestPrefix)
    (settings : OutliningSettings) (instructions : List Inst)
    (startIndices : List Nat) (candidateLength : Nat) :
    ∀ fuel offset,
    createOutlinedFunctionsAux lp settings instructions startIndices candidateLength
        fuel offset
      = (examinedOffsets lp settings instructions startIndices candidateLength
          fuel offset).filterMap
          (outlinedFunctionAt lp settings instructions startIndices candidateLength) := by
  intro fuel
  induction fuel with
  | zero => intro offset; rfl
  | succ fuel ih =>
    intro offset
    simp only [createOutlinedFunctionsAux, examinedOffsets]
    by_cases hoff : offset ≤ candidateLength - settings.minLength
    · rw [if_pos hoff, if_pos hoff, List.filterMap_cons]
      rcases hf : outlinedFunctionAt lp settings instructions startIndices candidateLength
          offset with _ | f
      · simp only [hf, ih]
      · simp only [hf, ih]
    · rw [if_neg hoff, if_neg hoff]
      rfl

theorem examinedOffsets_head (lp : List IRange → LongestPrefix)
    (settings : OutliningSettings) (instructions : List Inst)
    (startIndices : List Nat) (candidateLength : Nat) :
    ∀ fuel offset x tail,
    examinedOffsets lp settings instructions startIndices candidateLength fuel offset
      = x :: tail → x = offset := by
  intro fuel offset x tail h
  cases fuel with
  | zero => simp [examinedOffsets] at h
  | succ fuel =>
    simp only [examinedOffsets] at h
    by_cases hoff : offset ≤ candidateLength - settings.minLength
    · rw [if_pos hoff] at h
      injection h with h1 h2
      exact h1.symm
    · rw [if_neg hoff] at h
      cases h

theorem examinedOffsets_chain (lp : List IRange → LongestPrefix)
    (settings : OutliningSettings) (instructions : List Inst)
    (startIndices : List Nat) (candidateLength : Nat) :
    ∀ fuel offset,
    List.Chain'
      (fun o o' => o' = o + commonLengthAt lp instructions startIndices candidateLength o + 1)
      (examinedOffsets lp settings instructions startIndices candidateLength fuel offset) := by
  intro fuel
  induction fuel with
  | zero => intro offset; exact List.chain'_nil
  | succ fuel ih =>
    intro offset
    simp only [examinedOffsets]
    by_cases hoff : offset ≤ candidateLength - settings.minLength
    · rw [if_pos hoff]
      have hchain := ih
        (offset + commonLengthAt lp instructions startIndices candidateLength offset + 1)
      rcases htail : examinedOffsets lp settings instructions startIndices candidateLength
          fuel (offset + commonLengthAt lp instructions startIndices candidateLength offset + 1)
        with _ | ⟨x, tail⟩
      · simp
      · rw [htail] at hchain
        have hx := examinedOffsets_head lp settings instructions startIndices candidateLength
          fuel _ x tail htail
        exact List.Chain'.cons hx hchain
    · rw [if_neg hoff]
      exact List.chain'_nil

/-- C2 counterexample: in the concrete C2 example the loop examines offsets 0
and 3; at offset 0 the escape-shortened common prefix has length 2, below
minLength 3, so the offset is skipped, yet the next offset examined is
0 + 2 + 1 = 3, not 0 + 1 as the claim demands. -/
theorem claimC2_false_at_c2Instrs : ¬ claimC2 lpNoEscape c2Settings c2Instrs [0, 6] 6 := by
  unfold claimC2
  intro h
  have hoffsets : examinedOffsets lpNoEscape c2Settings c2Instrs [0, 6] 6 (6 + 1) 0
      = [0, 3] := by decide
  rw [hoffsets, List.chain'_cons] at h
  have h1 := h.1
  have hnone : (outlinedFunctionAt lpNoEscape c2Settings c2Instrs [0, 6] 6 0).isSome
      = false := by decide
  rw [hnone] at h1
  simp at h1

/-- C2 (amended): along the offsets the createOutlinedFunctions loop examines,
the next offset is always the current offset plus the escape-shortened
common-prefix length at the current offset plus 1 (which equals the current
offset plus 1 only when the common prefix is empty) - after skips for a too
short prefix, after skips for a parameter count out of bounds, and after
emitting an outlined function alike; the emitted functions are exactly the
per-offset results along that offset sequence. -/
theorem createOutlinedFunctions_offset_advance (lp : List IRange → LongestPrefix)
    (settings : OutliningSettings) (instructions : List Inst)
    (startIndices : List Nat) (candidateLength : Nat) :
    List.Chain'
      (fun o o' => o' = o + commonLengthAt lp instructions startIndices candidateLength o + 1)
      (examinedOffsets lp settings instructions startIndices candidateLength
        (candidateLength + 1) 0)
    ∧ createOutlinedFunctions lp settings instructions startIndices candidateLength
        = (examinedOffsets lp settings instructions startIndices candidateLength
            (candidateLength + 1) 0).filterMap
            (outlinedFunctionAt lp settings instructions startIndices candidateLength) :=
  ⟨examinedOffsets_chain lp settings instructions startIndices candidateLength
      (candidateLength + 1) 0,
    createOutlinedFunctionsAux_eq_filterMap lp settings instructions startIndices
      candidateLength (candidateLength + 1) 0⟩

theorem foldMax_ops (ops : List NOperand) (acc : Nat) :
    ops.foldl
      (fun count operand =>
        match operand with
        | NOperand.external index => max count (index + 1)
        | _ => count)
      acc
    = (ops.filterMap
        (fun operand => match operand with
          | NOperand.external index => some index
          | _ => none)).foldl (fun count index => max count (index + 1)) acc := by
  induction ops generalizing acc with
  | nil => rfl
  | cons op rest ih =>
    cases op <;> simp [List.filterMap_cons, ih]

theorem distinctExternalOperandCount_eq_foldl (expressions : List Expression) :
    ∀ acc,
    expressions.foldl
      (fun count expr =>
        expr.operands.foldl
          (fun count operand =>
            match operand with
            | NOperand.external index => max count (index + 1)
            | _ => count)
          count)
      acc
    = (externalIndices expressions).foldl (fun count index => max count (index + 1)) acc := by
  induction expressions with
  | nil => intro acc; rfl
  | cons e rest ih =>
    intro acc
    simp only [externalIndices, List.map_cons, List.flatten_cons, List.foldl_cons,
      List.foldl_append]
    rw [foldMax_ops]
    simp only [externalIndices] at ih
    exact ih _

theorem foldl_max_acc (l : List Nat) (acc : Nat) :
    l.foldl (fun count index => max count (index + 1)) acc
      = max acc (l.foldl (fun count index => max count (index + 1)) 0) := by
  induction l generalizing acc with
  | nil => simp
  | cons i rest ih =>
    simp only [List.foldl_cons]
    rw [ih (max acc (i + 1)), ih (max 0 (i + 1))]
    omega

theorem foldl_max_spec (l : List Nat) :
    (l = [] ∧ l.foldl (fun count index => max count (index + 1)) 0 = 0)
    ∨ (∃ m ∈ l, (∀ i ∈ l, i ≤ m)
        ∧ l.foldl (fun count index => max count (index + 1)) 0 = m + 1) := by
  induction l with
  | nil => left; exact ⟨rfl, rfl⟩
  | cons i rest ih =>
    right
    have hfold : (i :: rest).foldl (fun count index => max count (index + 1)) 0
        = max (i + 1) (rest.foldl (fun count index => max count (index + 1)) 0) := by
      simp only [List.foldl_cons]
      rw [foldl_max_acc]
      omega
    rcases ih with ⟨hnil, hz⟩ | ⟨m, hm, hbound, hval⟩
    · subst hnil
      refine ⟨i, List.mem_singleton.mpr rfl, ?_, ?_⟩
      · intro j hj
        rw [List.mem_singleton] at hj
        omega
      · rw [hfold, hz]
        omega
    · by_cases hcmp : i ≤ m
      · refine ⟨m, List.mem_cons_of_mem _ hm, ?_, ?_⟩
        · intro j hj
          rcases List.mem_cons.mp hj with hj | hj
          · omega
          · exact hbound j hj
        · rw [hfold, hval]
          omega
      · refine ⟨i, List.mem_cons_self i rest, ?_, ?_⟩
        · intro j hj
          rcases List.mem_cons.mp hj with hj | hj
          · omega
          · have := hbound j hj
            omega
        · rw [hfold, hval]
          omega

theorem outlinedFunctionAt_params {lp : List IRange → LongestPrefix}
    {settings : OutliningSettings} {instructions : List Inst}
    {startIndices : List Nat} {candidateLength offset : Nat} {f : OutlinedFunction}
    (h : outlinedFunctionAt lp settings instructions startIndices candidateLength offset
      = some f) :
    settings.minParameters ≤ distinctExternalOperandCount f.exprs
      ∧ distinctExternalOperandCount f.exprs ≤ settings.maxParameters := by
  simp only [outlinedFunctionAt] at h
  split at h
  · exact Option.noConfusion h
  · split at h
    · exact Option.noConfusion h
    · next hparams =>
      injection h with h
      subst h
      push_neg at hparams
      simp only []
      exact ⟨by omega, by omega⟩

/-- C3: every OutlinedFunction emitted by createOutlinedFunctions has its
parameter count (distinctExternalOperandCount of its common-prefix
expressions) within [minParameters, maxParameters], and that count equals 1
plus the maximum External operand index occurring in the expressions, or 0
when no External operand occurs. -/
theorem createOutlinedFunctions_parameter_bound (lp : List IRange → LongestPrefix)
    (settings : OutliningSettings) (instructions : List Inst)
    (startIndices : List Nat) (candidateLength : Nat) (f : OutlinedFunction)
    (hf : f ∈ createOutlinedFunctions lp settings instructions startIndices candidateLength) :
    (settings.minParameters ≤ distinctExternalOperandCount f.exprs
      ∧ distinctExternalOperandCount f.exprs ≤ settings.maxParameters)
    ∧ ((externalIndices f.exprs = [] ∧ distinctExternalOperandCount f.exprs = 0)
       ∨ (∃ m ∈ externalIndices f.exprs, (∀ i ∈ externalIndices f.exprs, i ≤ m)
            ∧ distinctExternalOperandCount f.exprs = m + 1)) := by
  unfold createOutlinedFunctions at hf
  rw [createOutlinedFunctionsAux_eq_filterMap] at hf
  obtain ⟨o, ho, hsome⟩ := List.mem_filterMap.mp hf
  refine ⟨outlinedFunctionAt_params hsome, ?_⟩
  have hdef : distinctExternalOperandCount f.exprs
      = (externalIndices f.exprs).foldl (fun count index => max count (index + 1)) 0 := by
    unfold distinctExternalOperandCount
    exact distinctExternalOperandCount_eq_foldl f.exprs 0
  rcases foldl_max_spec (externalIndices f.exprs) with ⟨hnil, hz⟩ | ⟨m, hm, hb, hv⟩
  · left
    exact ⟨hnil, by rw [hdef, hz]⟩
  · right
    exact ⟨m, hm, hb, by rw [hdef, hv]⟩

/-- Witness for C3 at the concrete C2/C3 example: the single emitted function
has 0 parameters, within [0, 10], and no External operand occurs. -/
theorem createOutlinedFunctions_parameter_bound_witness :
    (c2Settings.minParameters ≤ distinctExternalOperandCount c3Function.exprs
      ∧ distinctExternalOperandCount c3Function.exprs ≤ c2Settings.maxParameters)
    ∧ ((externalIndices c3Function.exprs = []
          ∧ distinctExternalOperandCount c3Function.exprs = 0)
       ∨ (∃ m ∈ externalIndices c3Function.exprs,
            (∀ i ∈ externalIndices c3Function.exprs, i ≤ m)
            ∧ distinctExternalOperandCount c3Function.exprs = m + 1)) :=
  createOutlinedFunctions_parameter_bound lpNoEscape c2Settings c2Instrs [0, 6] 6
    c3Function (by decide)

/-- C6: matchesCommonPrefix returns true only when the candidate range's
numbering equals the stored common-prefix expressions elementwise and the
escape analysis, with the range added, still reports an escape-clean prefix of
the full length; whenever it returns false, the escape analysis comes back in
exactly the state it had before the call (a tentatively added range has been
removed again). -/
theorem matchesCommonPrefix_spec (lp : List IRange → LongestPrefix)
    (instructions : List Inst) (expressions : List Expression)
    (escapeAnalysis : InstructionEscapeAnalysis) (startIdx : Nat) :
    ((matchesCommonPrefix lp instructions expressions escapeAnalysis startIdx).1 = true →
      expressions
          = (numberRange (getRange instructions startIdx expressions.length)).take
              expressions.length
        ∧ (lp ((escapeAnalysis.addRange
              (getRange instructions startIdx expressions.length)).ranges)).length
            = expressions.length)
    ∧ ((matchesCommonPrefix lp instructions expressions escapeAnalysis startIdx).1 = false →
      (matchesCommonPrefix lp instructions expressions escapeAnalysis startIdx).2
        = escapeAnalysis) := by
  simp only [matchesCommonPrefix]
  by_cases heq : expressions = (numberRange (getRange instructions startIdx
      expressions.length)).take expressions.length
  · rw [if_pos heq]
    by_cases hlen : (lp ((escapeAnalysis.addRange (getRange instructions startIdx
        expressions.length)).ranges)).length = expressions.length
    · rw [if_pos hlen]
      exact ⟨fun _ => ⟨heq, hlen⟩, fun hfalse => Bool.noConfusion hfalse⟩
    · rw [if_neg hlen]
      exact ⟨fun htrue => Bool.noConfusion htrue, fun _ => rfl⟩
  · rw [if_neg heq]
    exact ⟨fun htrue => Bool.noConfusion htrue, fun _ => rfl⟩

/-- Witness for C6: with no instructions the numbering of the probed range is
empty, the match fails, and the escape analysis comes back unchanged. -/
theorem matchesCommonPrefix_spec_witness :
    (matchesCommonPrefix lpNoEscape [] c3Function.exprs emptyEscapeAnalysis 0).2
      = emptyEscapeAnalysis :=
  (matchesCommonPrefix_spec lpNoEscape [] c3Function.exprs emptyEscapeAnalysis 0).2
    (by decide)

theorem buildOutlinedFunction_strictMode (lp : List IRange → LongestPrefix)
    (functionInfo : OutlinedFunction) (functionName : Nat) (M : List IRFunc)
    (instructions : List Inst) (cloneBase : Nat) :
    (buildOutlinedFunction lp functionInfo functionName M instructions cloneBase).strictMode
      = candidateStrictMode M instructions (firstNonPrunedCandidate functionInfo) := rfl

/-- C7: outlineCandidate returns false with the module exactly unchanged
whenever the candidate's containing function's strict mode differs from the
outlined function's, and the function built by buildOutlinedFunction carries
the strict mode of the containing function of the first non-pruned
candidate. -/
theorem outlineCandidate_strict_mode_spec (lp : List IRange → LongestPrefix)
    (functionInfo : OutlinedFunction) (functionName : Nat) (M : List IRFunc)
    (instructions : List Inst) (cloneBase : Nat) :
    (buildOutlinedFunction lp functionInfo functionName M instructions cloneBase).strictMode
        = candidateStrictMode M instructions (firstNonPrunedCandidate functionInfo)
    ∧ (∀ (candidate : Candidate) (function : OutFunc) (callAddr : Nat),
        candidateStrictMode M instructions candidate ≠ function.strictMode →
        outlineCandidate lp candidate function instructions M callAddr = (false, M)) := by
  refine ⟨rfl, ?_⟩
  intro candidate function callAddr hne
  unfold outlineCandidate
  rw [if_pos hne]

/-- Witness for C7: the strict outlined function rejects the non-strict
candidate of c10Module, returning false with the module untouched. -/
theorem outlineCandidate_strict_mode_spec_witness :
    outlineCandidate lpNoEscape
        { startIdx := 0, length := 2, callOverhead := 2, deleted := false }
        strictOutFunc (convertModuleToUnsignedVec c10Module c1Settings).instructions
        c10Module 999
      = (false, c10Module) :=
  (outlineCandidate_strict_mode_spec lpNoEscape c10FunctionInfo 0 c10Module
      (convertModuleToUnsignedVec c10Module c1Settings).instructions 0).2
    { startIdx := 0, length := 2, callOverhead := 2, deleted := false }
    strictOutFunc 999 (by decide)

/-- C8: the function built by buildOutlinedFunction returns the i-th cloned
instruction when the escape analysis of the template range reports escape
offset i, and the literal undefined when it reports no escape offset. -/
theorem buildOutlinedFunction_return_value (lp : List IRange → LongestPrefix)
    (functionInfo : OutlinedFunction) (functionName : Nat) (M : List IRFunc)
    (instructions : List Inst) (cloneBase : Nat) :
    (∀ i, (lp (emptyEscapeAnalysis.addRange (getRange instructions
          (firstNonPrunedCandidate functionInfo).startIdx
          (firstNonPrunedCandidate functionInfo).length)).ranges).offset = some i →
      (buildOutlinedFunction lp functionInfo functionName M instructions
          cloneBase).returnValue
        = Value.instRef (((buildOutlinedFunction lp functionInfo functionName M
            instructions cloneBase).body.getD i default).addr))
    ∧ ((lp (emptyEscapeAnalysis.addRange (getRange instructions
          (firstNonPrunedCandidate functionInfo).startIdx
          (firstNonPrunedCandidate functionInfo).length)).ranges).offset = none →
      (buildOutlinedFunction lp functionInfo functionName M instructions
          cloneBase).returnValue
        = undefinedLiteral) := by
  constructor
  · intro i hoff
    simp only [buildOutlinedFunction, hoff]
  · intro hoff
    simp only [buildOutlinedFunction, hoff]

/-- Witness for C8: with the no-escape longestPrefix model the built function
returns the literal undefined. -/
theorem buildOutlinedFunction_return_value_witness :
    (buildOutlinedFunction lpNoEscape c10FunctionInfo 7 c10Module
        (convertModuleToUnsignedVec c10Module c1Settings).instructions 100).returnValue
      = undefinedLiteral :=
  (buildOutlinedFunction_return_value lpNoEscape c10FunctionInfo 7 c10Module
      (convertModuleToUnsignedVec c10Module c1Settings).instructions 100).2
    (by decide)

/-- C9: tryFindPropertyFast succeeds exactly when the property map is already
allocated and contains the name, in which case the descriptor it reports is
the stored one; when the map is not materialized it always fails (it is a pure
function of a const receiver with no runtime access, so it can neither
materialize a map nor modify the class). -/
theorem tryFindPropertyFast_spec (self : HiddenClass) (name : SymbolID) :
    (∀ d, self.tryFindPropertyFast name = some d ↔
        ∃ pm pos, self.propertyMap = some pm ∧ pm.find name = some pos
          ∧ d = (pm.getDescriptorPair pos).2)
    ∧ (self.propertyMap = none → self.tryFindPropertyFast name = none) := by
  constructor
  · intro d
    constructor
    · intro h
      unfold HiddenClass.tryFindPropertyFast at h
      rcases hpm : self.propertyMap with _ | pm
      · rw [hpm] at h
        simp at h
      · rw [hpm] at h
        simp only at h
        rcases hfind : pm.find name with _ | pos
        · rw [hfind] at h
          simp at h
        · rw [hfind] at h
          simp at h
          exact ⟨pm, pos, rfl, hfind, h.symm⟩
    · rintro ⟨pm, pos, hpm, hfind, hd⟩
      unfold HiddenClass.tryFindPropertyFast
      rw [hpm]
      simp only
      rw [hfind]
      simp only
      rw [hd]
  · intro h
    unfold HiddenClass.tryFindPropertyFast
    rw [h]

/-- Witness for C9: the one-property class yields its stored descriptor for
name 5, so the map is allocated and contains the name. -/
theorem tryFindPropertyFast_spec_witness :
    ∃ pm pos, c9Class.propertyMap = some pm ∧ DictPropertyMap.find pm 5 = some pos
      ∧ (⟨0, { writable := true }⟩ : NamedPropertyDescriptor)
          = (DictPropertyMap.getDescriptorPair pm pos).2 :=
  ((tryFindPropertyFast_spec c9Class 5).1 ⟨0, { writable := true }⟩).mp (by decide)

theorem find?_append_deleted (pre : List Candidate) (c : Candidate)
    (rest : List Candidate) (hpre : ∀ x ∈ pre, x.deleted = true)
    (hc : c.deleted = false) :
    (pre ++ c :: rest).find? (fun x => !x.deleted) = some c := by
  induction pre with
  | nil =>
    simp only [List.nil_append]
    rw [List.find?_cons_of_pos]
    rw [hc]
    rfl
  | cons p pre ih =>
    have hp := hpre p (List.mem_cons_self p pre)
    simp only [List.cons_append]
    rw [List.find?_cons_of_neg]
    · exact ih (fun x hx => hpre x (List.mem_cons_of_mem p hx))
    · rw [hp]
      simp

theorem outlineCandidate_true_of_strict_eq {lp : List IRange → LongestPrefix}
    {candidate : Candidate} {function : OutFunc} {instructions : List Inst}
    {M : List IRFunc} {callAddr : Nat}
    (h : candidateStrictMode M instructions candidate = function.strictMode) :
    (outlineCandidate lp candidate function instructions M callAddr).1 = true := by
  unfold outlineCandidate
  rw [if_neg (by simp [h])]

theorem outlineFunctionCandidates_numOutlined_mono (lp : List IRange → LongestPrefix)
    (functionInfo : OutlinedFunction) (functionName : Nat) (instructions : List Inst) :
    ∀ (cs : List Candidate) (fn : Option OutFunc) (n : Nat) (M : List IRFunc) (a : Nat),
    n ≤ (outlineFunctionCandidates lp functionInfo functionName instructions
        cs fn n M a).numOutlined := by
  intro cs
  induction cs with
  | nil => intro fn n M a; exact Nat.le_refl n
  | cons c rest ih =>
    intro fn n M a
    simp only [outlineFunctionCandidates]
    by_cases hdel : c.deleted = true
    · rw [if_pos hdel]
      exact ih fn n M a
    · rw [if_neg hdel]
      rcases fn with _ | f
      · simp only
        refine le_trans ?_ (ih _ _ _ _)
        split <;> omega
      · simp only
        refine le_trans ?_ (ih _ _ _ _)
        split <;> omega

theorem outlineFunctionCandidates_success (lp : List IRange → LongestPrefix)
    (functionInfo : OutlinedFunction) (functionName : Nat) (instructions : List Inst) :
    ∀ (cs : List Candidate) (pre : List Candidate) (M : List IRFunc) (a : Nat),
    functionInfo.candidates = pre ++ cs →
    (∀ x ∈ pre, x.deleted = true) →
    (outlineFunctionCandidates lp functionInfo functionName instructions
        cs none 0 M a).function.isSome = true →
    1 ≤ (outlineFunctionCandidates lp functionInfo functionName instructions
        cs none 0 M a).numOutlined := by
  intro cs
  induction cs with
  | nil =>
    intro pre M a hsplit hpre hsome
    simp [outlineFunctionCandidates] at hsome
  | cons c rest ih =>
    intro pre M a hsplit hpre hsome
    by_cases hdel : c.deleted = true
    · simp only [outlineFunctionCandidates, if_pos hdel] at hsome ⊢
      refine ih (pre ++ [c]) M a ?_ ?_ hsome
      · rw [hsplit, List.append_assoc]
        rfl
      · intro x hx
        rcases List.mem_append.mp hx with hx | hx
        · exact hpre x hx
        · rw [List.mem_singleton] at hx
          rw [hx]
          exact hdel
    · rw [Bool.not_eq_true] at hdel
      have hfirst : firstNonPrunedCandidate functionInfo = c := by
        unfold firstNonPrunedCandidate
        rw [hsplit, find?_append_deleted pre c rest hpre hdel]
        rfl
      have hstrict : (buildOutlinedFunction lp functionInfo functionName M instructions
          a).strictMode = candidateStrictMode M instructions c := by
        rw [buildOutlinedFunction_strictMode, hfirst]
      have htrue : (outlineCandidate lp c
          (buildOutlinedFunction lp functionInfo functionName M instructions a)
          instructions M (a + c.length)).1 = true :=
        outlineCandidate_true_of_strict_eq hstrict.symm
      simp only [outlineFunctionCandidates, hdel, Bool.false_eq_true, if_false, htrue,
        if_true]
      have := outlineFunctionCandidates_numOutlined_mono lp functionInfo functionName
        instructions rest
        (some (buildOutlinedFunction lp functionInfo functionName M instructions a))
        1
        (outlineCandidate lp c
          (buildOutlinedFunction lp functionInfo functionName M instructions a)
          instructions M (a + c.length)).2
        (a + c.length + 1)
      simpa using this

theorem processOutlinedFunction_inv (lp : List IRange → LongestPrefix)
    (getBenefit : OutlinedFunction → Nat) (functionName : Nat)
    (instructions : List Inst) (st : RoundState) (functionInfo : OutlinedFunction)
    (hinv : (∀ p ∈ st.created, 1 ≤ p.2) ∧ (st.created ≠ [] → st.changed = true)) :
    (∀ p ∈ (processOutlinedFunction lp getBenefit functionName instructions
        st functionInfo).created, 1 ≤ p.2)
    ∧ ((processOutlinedFunction lp getBenefit functionName instructions
        st functionInfo).created ≠ []
      → (processOutlinedFunction lp getBenefit functionName instructions
          st functionInfo).changed = true) := by
  unfold processOutlinedFunction
  by_cases hb : getBenefit functionInfo < 1
  · rw [if_pos hb]
    exact hinv
  · rw [if_neg hb]
    rcases hr : (outlineFunctionCandidates lp functionInfo functionName instructions
        functionInfo.candidates none 0 st.modState st.nextAddr).function with _ | fn
    · simp only [hr]
      constructor
      · intro p hp
        simp at hp
        exact hinv.1 p hp
      · intro hne
        simp at hne
        rw [hinv.2 hne]
        simp
    · have hn : 1 ≤ (outlineFunctionCandidates lp functionInfo functionName instructions
          functionInfo.candidates none 0 st.modState st.nextAddr).numOutlined := by
        refine outlineFunctionCandidates_success lp functionInfo functionName instructions
          functionInfo.candidates [] st.modState st.nextAddr rfl (by intro x hx; cases hx) ?_
        rw [hr]
        rfl
      simp only [hr]
      constructor
      · intro p hp
        rcases List.mem_append.mp hp with hp | hp
        · exact hinv.1 p hp
        · rw [List.mem_singleton] at hp
          rw [hp]
          exact hn
      · intro _
        have : decide (0 < (outlineFunctionCandidates lp functionInfo functionName
            instructions functionInfo.candidates none 0 st.modState
            st.nextAddr).numOutlined) = true := by
          rw [decide_eq_true_eq]
          omega
        rw [this]
        simp

theorem foldl_processOutlinedFunction_inv (lp : List IRange → LongestPrefix)
    (getBenefit : OutlinedFunction → Nat) (functionName : Nat)
    (instructions : List Inst) :
    ∀ (fs : List OutlinedFunction) (st : RoundState),
    ((∀ p ∈ st.created, 1 ≤ p.2) ∧ (st.created ≠ [] → st.changed = true)) →
    ((∀ p ∈ (fs.foldl (processOutlinedFunction lp getBenefit functionName instructions)
        st).created, 1 ≤ p.2)
      ∧ ((fs.foldl (processOutlinedFunction lp getBenefit functionName instructions)
          st).created ≠ []
        → (fs.foldl (processOutlinedFunction lp getBenefit functionName instructions)
            st).changed = true)) := by
  intro fs
  induction fs with
  | nil => intro st h; exact h
  | cons f rest ih =>
    intro st h
    exact ih _ (processOutlinedFunction_inv lp getBenefit functionName instructions
      st f h)

/-- C10: in a round of outlineModuleOnce, every outlined function that is
materialized and added has at least one candidate successfully outlined in the
same round (the function is built from the first non-pruned candidate and
inherits that candidate's function's strict mode, so the strict-mode check
cannot reject that candidate), and whenever any function was created the round
reports a change; hence no outlined function with zero call sites is left. -/
theorem outlineModuleOnce_call_sites (lp : List IRange → LongestPrefix)
    (getBenefit : OutlinedFunction → Nat)
    (getFunctionsToOutline : List Nat → List OutlinedFunction)
    (functionName baseAddr : Nat) (M : List IRFunc) (settings : OutliningSettings) :
    (∀ p ∈ (outlineModuleOnce lp getBenefit getFunctionsToOutline functionName baseAddr
        M settings).created, 1 ≤ p.2)
    ∧ ((outlineModuleOnce lp getBenefit getFunctionsToOutline functionName baseAddr
        M settings).created ≠ []
      → (outlineModuleOnce lp getBenefit getFunctionsToOutline functionName baseAddr
          M settings).changed = true) := by
  unfold outlineModuleOnce
  refine foldl_processOutlinedFunction_inv lp getBenefit functionName _ _ _ ⟨?_, ?_⟩
  · intro p hp
    cases hp
  · intro hne
    cases hne rfl

/-- Witness for C10: the concrete round on c10Module creates one function,
outlines its candidate, and reports a change. -/
theorem outlineModuleOnce_call_sites_witness :
    (outlineModuleOnce lpNoEscape (fun _ => 1) (fun _ => [c10FunctionInfo]) 7 100
        c10Module c1Settings).changed = true :=
  (outlineModuleOnce_call_sites lpNoEscape (fun _ => 1) (fun _ => [c10FunctionInfo])
      7 100 c10Module c1Settings).2 (by decide)
